import Mathlib

/-!
# Verification of the Hamilton Microlab syringe-pump driver

Shallow embedding of the driver's transaction layer (`comms.py`), the
device-controller cycling state machine (`microlab.py`) and the command
construction layer, together with theorems settling the specification's
claims about them.

Conventions: byte strings received from the socket are `List Nat` (each
element one byte); decoded ASCII text is `List Char`.
-/

namespace SyringePoster

/-- ASCII carriage return, the protocol frame terminator (`CR = "\r"`). -/
def CRchar : Char := '\r'

/-- ASCII acknowledge control character (`ACK = "\x06"`). -/
def ACKchar : Char := '\x06'

/-- ASCII negative-acknowledge control character (`NACK = "\x21"`). -/
def NACKchar : Char := '\x21'

/-- Python `str.split(sep)` for a single-character separator: splits on every
occurrence of the separator, keeping empty pieces, so the result always has
one more element than the number of separators. -/
def pySplit (sep : Char) : List Char → List (List Char)
  | [] => [[]]
  | c :: rest =>
    match pySplit sep rest with
    | [] => [[]]
    | g :: gs => if c = sep then [] :: g :: gs else (c :: g) :: gs

/-- Python `str.strip(ch)` for a single strip character: removes every leading
and trailing occurrence of `ch`. -/
def pyStrip (ch : Char) (s : List Char) : List Char :=
  ((s.dropWhile (· = ch)).reverse.dropWhile (· = ch)).reverse

/-- Python `expr or None` applied to a string: an empty string is coerced to
`None`, a non-empty one is kept. -/
def orNone (s : List Char) : Option (List Char) :=
  if s = [] then none else some s

/-- `bytes.decode("ascii")`: succeeds exactly when every byte is below 128,
yielding the corresponding characters; otherwise `UnicodeDecodeError`. -/
def decodeAscii (bs : List Nat) : Option (List Char) :=
  if bs.all (· < 128) then some (bs.map Char.ofNat) else none

deriving instance DecidableEq for Except

/-- What `socket.recv` produces inside `Comms._send_receive`: either a byte
string, or a `socket.timeout` exception (the receive timeout is 1 second). -/
inductive RecvResult where
  | bytes (bs : List Nat)
  | timeout
  deriving DecidableEq, Repr

/-- The exceptions that can escape `Comms.send_receive`: the uncaught
`socket.timeout` raised by `recv`, and `IndexError` from subscripting an
empty string or an empty message list. -/
inductive CommsError where
  | socketTimeout
  | indexError
  deriving DecidableEq, Repr

/-- The observable outcome of a completed `Comms.send_receive` call: the
returned `(success, data)` pair plus the number of "multiple messages"
warnings logged during the call. -/
structure SROutcome where
  success : Bool
  payload : Option (List Char)
  warnings : Nat
  deriving DecidableEq, Repr

/-- `Comms._send_receive` after the bytes were received: decode as ASCII
(`None` on failure), and return `None` if the first decoded character is
NACK, otherwise the decoded text.  Subscripting an empty decode raises. -/
def sendReceiveAux (bs : List Nat) : Except CommsError (Option (List Char)) :=
  match decodeAscii bs with
  | none => .ok none
  | some decoded =>
    match decoded with
    | [] => .error .indexError
    | c :: _ => if c = NACKchar then .ok none else .ok (some decoded)

/-- The classification half of `Comms.send_receive`, applied to the decoded
text returned by `_send_receive`: split on CR, drop the trailing piece
after the last CR, log one warning when more than one message remains, and
let the final message alone determine success (leading ACK) and payload
(ACK then CR stripped, empty coerced to `None`).  Subscripting an empty
message list or an empty final message raises `IndexError`. -/
def classifyDecoded (decoded : List Char) : Except CommsError SROutcome :=
  let messages := (pySplit CRchar decoded).dropLast
  let warnings := if 1 < messages.length then 1 else 0
  match messages.getLast? with
  | none => .error .indexError
  | some lastMsg =>
    match lastMsg with
    | [] => .error .indexError
    | c :: _ =>
      if c = ACKchar then
        .ok ⟨true, orNone (pyStrip CRchar (pyStrip ACKchar lastMsg)), warnings⟩
      else
        .ok ⟨false, none, warnings⟩

/-- `Comms.send_receive` applied to the receive outcome of its single
transaction: a `None` from `_send_receive` (NACK or undecodable bytes)
yields `(False, None)`; otherwise the decoded text is classified by its
final CR-terminated message. -/
def sendReceive (r : RecvResult) : Except CommsError SROutcome :=
  match r with
  | .timeout => .error .socketTimeout
  | .bytes bs =>
    match sendReceiveAux bs with
    | .error e => .error e
    | .ok none => .ok ⟨false, none, 0⟩
    | .ok (some decoded) => classifyDecoded decoded

/-- The concatenation of a list of reply segments, each terminated by CR:
the byte-level shape of a multi-message reply's prefix. -/
def segJoin (segs : List (List Char)) : List Char :=
  (segs.map (· ++ [CRchar])).flatten

/-! ## Device controller (`microlab.py`) -/

/-- `Microlab.send_command`: performs one `send_receive` transaction whose
request body is the address followed by the command's rendered string
(`address + command.string`).  The Python method body is a bare expression
statement, so the `(success, data)` pair returned by `send_receive` is
discarded and the method itself returns `None`.  First component: the
request bodies passed to `send_receive`, in order; second component: the
value the caller receives. -/
def send_command (address cmdString : List Char) (_reply : RecvResult) :
    List (List Char) × Option SROutcome :=
  ([address ++ cmdString], none)

/-- The `Microlab` state mutated by the cycling machinery: the `_threads`
list of background-task handles and the `_stop_requested` flag. -/
structure MState where
  threads : List Nat
  stopRequested : Bool
  deriving DecidableEq, Repr

/-- Observable result of a `Microlab.cycle_commands` call: the controller
state afterwards, whether a new background thread was created and started,
and whether the already-running error message was logged. -/
structure CycleStartResult where
  state : MState
  spawned : Bool
  errorLogged : Bool
  deriving DecidableEq, Repr

/-- `Microlab.cycle_commands`: if `_threads` is non-empty it logs an error
and returns without touching anything; otherwise it appends one new
`threading.Thread` handle and starts it. -/
def cycle_commands (s : MState) (newHandle : Nat) : CycleStartResult :=
  if s.threads.isEmpty then
    ⟨⟨s.threads ++ [newHandle], s.stopRequested⟩, true, false⟩
  else
    ⟨s, false, true⟩

/-- `Microlab._reset_cycle` minus the `halt_execution` transaction (recorded
separately as a trace action): resets `_stop_requested` and clears
`_threads`. -/
def reset_cycle (_s : MState) : MState := ⟨[], false⟩

/-- The device-idle query code `INSTRUMENT_DONE = "F"`. -/
def INSTRUMENT_DONE : List Char := ['F']

/-- Modelled from the spec: `Y_INFO_RESPONSE` lives in
`hamiltonmicrolab/commands/instrument_information_request.py`, which is not
among the sources (only its importers are).  Per the spec it is the
informational reply payload meaning "Instrument is idle and command buffer
is empty"; following the module's Y/N naming it is taken to be `"Y"`.  No
theorem below depends on its concrete text, only on it being a string. -/
def Y_INFO_RESPONSE : List Char := ['Y']

/-- One observable step of `Microlab._cycle_commands`: sending a command,
issuing a busy-poll transaction, sleeping between polls, or the
`halt_execution` transaction issued by `_reset_cycle`. -/
inductive CycleAction where
  | send (body : List Char)
  | poll
  | sleep
  | halt
  deriving DecidableEq, Repr

/-- Control position inside `Microlab._cycle_commands`: about to test the
outer `while not self._stop_requested`, iterating the `for command in
commands` loop, or inside the inner busy-poll `while` for the current
command. -/
inductive Phase where
  | outer
  | cmds (rest : List (List Char))
  | poll (rest : List (List Char))
  deriving DecidableEq, Repr

/-- Fuel-indexed interpreter for `Microlab._cycle_commands`.  `stops i` is
the value the `i`-th read of `self._stop_requested` observes (the flag is
written concurrently by `stop_cycle`); `polls i` is the payload component
`send_receive(address + INSTRUMENT_DONE)[1]` of the `i`-th busy-poll.
`si`/`pi` count the reads so far.  Returns `none` when the fuel runs out
before the loop returns, else the action trace and the final controller
state.  Mirrors the source: the outer `while` re-reads the flag, each
command is sent then busy-polled until the payload equals
`Y_INFO_RESPONSE`, the flag is checked before every sleep, and every
return path runs `_reset_cycle` (whose `halt_execution` is the `halt`
action). -/
def runCycle (commands : List (List Char)) (address : List Char)
    (stops : Nat → Bool) (polls : Nat → Option (List Char)) :
    Nat → Nat → Nat → Phase → MState → Option (List CycleAction × MState)
  | 0, _, _, _, _ => none
  | f + 1, si, pi, ph, s =>
    match ph with
    | .outer =>
      if stops si then
        some ([.halt], reset_cycle s)
      else
        runCycle commands address stops polls f (si + 1) pi (.cmds commands) s
    | .cmds [] => runCycle commands address stops polls f si pi .outer s
    | .cmds (c :: rest) =>
      match runCycle commands address stops polls f si pi (.poll rest) s with
      | none => none
      | some (tr, s') => some (.send (address ++ c) :: tr, s')
    | .poll rest =>
      if polls pi = some Y_INFO_RESPONSE then
        match runCycle commands address stops polls f si (pi + 1) (.cmds rest) s with
        | none => none
        | some (tr, s') => some (.poll :: tr, s')
      else if stops si then
        some ([.poll, .halt], reset_cycle s)
      else
        match runCycle commands address stops polls f (si + 1) (pi + 1) (.poll rest) s with
        | none => none
        | some (tr, s') => some (.poll :: .sleep :: tr, s')

/-! ## The Link's mutual-exclusion gate (`comms.py`, `threading.Lock`) -/

/-- Program counter of one logical caller running `Comms._send_receive`:
not yet at `with self._lock`, holding the lock before `_send`, holding it
between `_send` and `recv`, or finished (lock released). -/
inductive LockPC where
  | idle
  | locked
  | sent
  | finished
  deriving DecidableEq, Repr

/-- Global state of the Link's gate: which caller (if any) holds
`self._lock`, and each caller's program counter. -/
structure LinkState where
  holder : Option Nat
  pc : Nat → LockPC

/-- Interleaving semantics of `with self._lock: self._send(request);
response = self._socket.recv(...)`: a caller may acquire the free lock,
send while holding it, and receive-then-release. -/
inductive LinkStep : LinkState → LinkState → Prop where
  | acquire (t : Nat) (s : LinkState) :
      s.pc t = .idle → s.holder = none →
      LinkStep s ⟨some t, Function.update s.pc t .locked⟩
  | send (t : Nat) (s : LinkState) :
      s.pc t = .locked →
      LinkStep s ⟨s.holder, Function.update s.pc t .sent⟩
  | recvRelease (t : Nat) (s : LinkState) :
      s.pc t = .sent →
      LinkStep s ⟨none, Function.update s.pc t .finished⟩

/-- Initial gate state: lock free, no caller started. -/
def LinkInit : LinkState := ⟨none, fun _ => .idle⟩

/-- States reachable from the initial gate state. -/
def LinkReachable (s : LinkState) : Prop :=
  Relation.ReflTransGen LinkStep LinkInit s

/-- Caller `t` is inside the gated request/response exchange: it has
acquired the lock and not yet completed its receive. -/
def inExchange (s : LinkState) (t : Nat) : Prop :=
  s.pc t = .locked ∨ s.pc t = .sent

/-- A concrete reachable gate state: caller 0 has just acquired the lock. -/
def exampleLinkState : LinkState :=
  ⟨some 0, Function.update (fun _ => LockPC.idle) 0 .locked⟩

/-! ## Syringe move sub-commands (modelled from the spec) -/

/-- The two syringe sides. -/
inductive Side where
  | left
  | right
  deriving DecidableEq, Repr

/-- Raised when a sub-command's constructor arguments are out of range. -/
inductive ValidationError where
  | outOfRange
  deriving DecidableEq, Repr

/-- Modelled from the spec: `hamiltonmicrolab/commands/syringe_move.py` is
not among the sources (only its tests and importers are).  The documented
closed ranges for a move's step value, its speed and its return steps
(`MIN_SYRINGE_MOVE`/`MAX_SYRINGE_MOVE` and friends). -/
structure SyringeRanges where
  minMove : Int
  maxMove : Int
  minSpeed : Int
  maxSpeed : Int
  minReturn : Int
  maxReturn : Int
  deriving DecidableEq, Repr

/-- A constructed syringe move sub-command (pickup, dispense or absolute
move), holding its validated fields. -/
structure SyringeMove where
  side : Side
  value : Int
  speed : Option Int
  returnSteps : Option Int
  deriving DecidableEq, Repr

/-- The step value lies outside the documented addressable range. -/
def valueOutside (r : SyringeRanges) (v : Int) : Bool :=
  v < r.minMove || r.maxMove < v

/-- A supplied speed lies outside the accepted speed range. -/
def speedOutside (r : SyringeRanges) : Option Int → Bool
  | none => false
  | some x => x < r.minSpeed || r.maxSpeed < x

/-- A supplied return-steps value lies outside its accepted range. -/
def returnStepsOutside (r : SyringeRanges) : Option Int → Bool
  | none => false
  | some x => x < r.minReturn || r.maxReturn < x

/-- Modelled from the spec: the `SyringePickup` constructor validates its
step value and optional speed and return steps, failing with
`ValidationError` when any lies outside its documented range.  The second
component lists the transactions performed during construction: none. -/
def mkSyringePickup (r : SyringeRanges) (side : Side) (value : Int)
    (speed returnSteps : Option Int) :
    Except ValidationError SyringeMove × List (List Char) :=
  if valueOutside r value || speedOutside r speed || returnStepsOutside r returnSteps then
    (.error .outOfRange, [])
  else
    (.ok ⟨side, value, speed, returnSteps⟩, [])

/-- Modelled from the spec: the `SyringeDispense` constructor validates its
step value and optional speed; it performs no transaction. -/
def mkSyringeDispense (r : SyringeRanges) (side : Side) (value : Int)
    (speed : Option Int) :
    Except ValidationError SyringeMove × List (List Char) :=
  if valueOutside r value || speedOutside r speed then
    (.error .outOfRange, [])
  else
    (.ok ⟨side, value, speed, none⟩, [])

/-- Modelled from the spec: the `SyringeAbsoluteMove` constructor validates
its step value and optional speed; it performs no transaction. -/
def mkSyringeAbsoluteMove (r : SyringeRanges) (side : Side) (value : Int)
    (speed : Option Int) :
    Except ValidationError SyringeMove × List (List Char) :=
  if valueOutside r value || speedOutside r speed then
    (.error .outOfRange, [])
  else
    (.ok ⟨side, value, speed, none⟩, [])

/-! ## Helper lemmas -/

theorem pySplit_ne_nil (sep : Char) (s : List Char) : pySplit sep s ≠ [] := by
  induction s with
  | nil => simp [pySplit]
  | cons c rest ih =>
    rw [pySplit]
    rcases h : pySplit sep rest with _ | ⟨g, gs⟩
    · exact absurd h ih
    · simp only [h]
      split <;> simp

theorem pySplit_sep_cons (sep : Char) (rest : List Char) :
    pySplit sep (sep :: rest) = [] :: pySplit sep rest := by
  rw [pySplit]
  rcases h : pySplit sep rest with _ | ⟨g, gs⟩
  · exact absurd h (pySplit_ne_nil sep rest)
  · simp

theorem pySplit_append_sep (sep : Char) (s rest : List Char) (h : sep ∉ s) :
    pySplit sep (s ++ sep :: rest) = s :: pySplit sep rest := by
  induction s with
  | nil => simpa using pySplit_sep_cons sep rest
  | cons c s ih =>
    have hc : c ≠ sep := by
      intro e
      exact h (by simp [e])
    have hs : sep ∉ s := fun m => h (List.mem_cons_of_mem _ m)
    rw [List.cons_append, pySplit, ih hs]
    simp [hc]

theorem pySplit_segJoin (segs : List (List Char)) (rest : List Char)
    (h : ∀ s ∈ segs, CRchar ∉ s) :
    pySplit CRchar (segJoin segs ++ rest) = segs ++ pySplit CRchar rest := by
  induction segs with
  | nil => simp [segJoin]
  | cons s segs ih =>
    have hs : CRchar ∉ s := h s (by simp)
    have hsegs : ∀ t ∈ segs, CRchar ∉ t := fun t ht => h t (by simp [ht])
    have hshape : segJoin (s :: segs) ++ rest = s ++ (CRchar :: (segJoin segs ++ rest)) := by
      simp [segJoin, List.append_assoc]
    rw [hshape, pySplit_append_sep _ _ _ hs, ih hsegs]
    simp

theorem decodeAscii_map_toNat (l : List Char) (h : ∀ c ∈ l, c.toNat < 128) :
    decodeAscii (l.map Char.toNat) = some l := by
  have hall : (l.map Char.toNat).all (· < 128) = true := by
    simp only [List.all_eq_true, List.mem_map, decide_eq_true_eq]
    rintro x ⟨c, hc, rfl⟩
    exact h c hc
  rw [decodeAscii, if_pos hall]
  simp [List.map_map, Function.comp_def, Char.ofNat_toNat]

theorem orNone_ne_some_nil (s : List Char) : orNone s ≠ some [] := by
  unfold orNone
  split <;> simp_all

theorem classifyDecoded_payload_ne_nil (d : List Char) (out : SROutcome)
    (h : classifyDecoded d = .ok out) : out.payload ≠ some [] := by
  simp only [classifyDecoded] at h
  split at h
  · simp at h
  · split at h
    · simp at h
    · split at h
      · cases h
        exact orNone_ne_some_nil _
      · cases h
        simp

/-! ## Claim theorems -/

/-- C10: on a successful transaction whose acknowledged final segment
carries no payload characters (e.g. reply bytes `\x06\r`), `send_receive`
returns success with payload `None`; in general the payload of any
completed `send_receive` call is never the empty string, since an empty
stripped payload is coerced to `None`. -/
theorem success_payload_never_empty :
    sendReceive (.bytes [6, 13]) = .ok ⟨true, none, 0⟩ ∧
    ∀ (bs : List Nat) (out : SROutcome),
      sendReceive (.bytes bs) = .ok out → out.payload ≠ some [] := by
  refine ⟨by decide, ?_⟩
  intro bs out h
  simp only [sendReceive] at h
  split at h
  · simp at h
  · cases h
    simp
  · exact classifyDecoded_payload_ne_nil _ _ h

theorem success_payload_never_empty_witness :
    (⟨true, some ['A'], 0⟩ : SROutcome).payload ≠ some [] :=
  success_payload_never_empty.2 [6, 65, 13] ⟨true, some ['A'], 0⟩ (by decide)

/-- C3 counterexample: given reply bytes `\x06@\r`, `send_receive` reports
success with payload `"@"` — the payload is neither `None` nor empty, so
the claimed empty payload is wrong. -/
theorem ack_at_reply_payload_not_empty :
    sendReceive (.bytes [6, 64, 13]) = .ok ⟨true, some ['@'], 0⟩ ∧
    some ['@'] ≠ (none : Option (List Char)) ∧ ['@'] ≠ ([] : List Char) := by
  decide

/-- C3 amended: given reply bytes `\x06@\r`, `send_receive` reports success
with payload `"@"` (only the leading ACK is stripped; `@` is ordinary
payload text). -/
theorem ack_at_reply_classification :
    sendReceive (.bytes [6, 64, 13]) = .ok ⟨true, some ['@'], 0⟩ := by
  decide

/-- C2 amended: NACK replies and undecodable bytes are reported through the
returned `(success, payload)` pair as `(False, None)` without raising; a
receive timeout, however, is not caught and propagates (`socket.timeout`),
and replies without a CR-terminated segment or with an empty final segment
raise `IndexError`. -/
theorem transaction_failures_tristate :
    (∀ bs : List Nat, decodeAscii bs = none →
      sendReceive (.bytes bs) = .ok ⟨false, none, 0⟩) ∧
    (∀ (bs : List Nat) (rest : List Char), decodeAscii bs = some (NACKchar :: rest) →
      sendReceive (.bytes bs) = .ok ⟨false, none, 0⟩) ∧
    sendReceive .timeout = .error .socketTimeout ∧
    sendReceive (.bytes []) = .error .indexError ∧
    sendReceive (.bytes [6, 65]) = .error .indexError ∧
    sendReceive (.bytes [13, 13]) = .error .indexError := by
  refine ⟨?_, ?_, rfl, by decide, by decide, by decide⟩
  · intro bs h
    simp [sendReceive, sendReceiveAux, h]
  · intro bs rest h
    simp [sendReceive, sendReceiveAux, h]

theorem transaction_failures_tristate_witness :
    sendReceive (.bytes [255]) = .ok ⟨false, none, 0⟩ ∧
    sendReceive (.bytes [33, 13]) = .ok ⟨false, none, 0⟩ :=
  ⟨transaction_failures_tristate.1 [255] (by decide),
   transaction_failures_tristate.2.1 [33, 13] ['\r'] (by decide)⟩

/-- C2 counterexample: `send_receive` does not always return a pair — when
the single blocking receive times out, the `socket.timeout` exception is
not caught and escapes the call. -/
theorem timeout_raises :
    sendReceive .timeout = .error .socketTimeout ∧
    ∀ out : SROutcome, sendReceive .timeout ≠ .ok out := by
  refine ⟨rfl, ?_⟩
  intro out h
  simp [sendReceive] at h

/-- C4 amended: `send_command` performs exactly one transaction whose body
is the address followed by the rendered command string, and discards the
entire `send_receive` result — the method returns `None`, so neither the
payload nor the success flag is propagated to the caller. -/
theorem send_command_single_transaction (address cmdString : List Char) (reply : RecvResult) :
    send_command address cmdString reply = ([address ++ cmdString], none) :=
  rfl

/-- C4 counterexample: a successful reply and a NACK reply produce
identical caller-visible results from `send_command`, although the two
transactions have different outcomes — the success flag is not propagated
through any tri-state path. -/
theorem send_command_discards_outcome :
    send_command ['a'] ['X', 'R'] (.bytes [6, 13]) =
      send_command ['a'] ['X', 'R'] (.bytes [33, 13]) ∧
    sendReceive (.bytes [6, 13]) = .ok ⟨true, none, 0⟩ ∧
    sendReceive (.bytes [33, 13]) = .ok ⟨false, none, 0⟩ := by
  decide

/-- C6: calling `cycle_commands` while the `_threads` list is non-empty (a
cycle is running) logs the already-running error, spawns no new background
thread, and leaves the controller state untouched. -/
theorem cycle_start_running_guard (s : MState) (newHandle : Nat) (h : s.threads ≠ []) :
    cycle_commands s newHandle = ⟨s, false, true⟩ := by
  simp [cycle_commands, h]

theorem cycle_start_running_guard_witness :
    cycle_commands ⟨[7], false⟩ 9 = ⟨⟨[7], false⟩, false, true⟩ :=
  cycle_start_running_guard ⟨[7], false⟩ 9 (by decide)

/-- C9 (spec-modelled): for every step, speed or return-steps value outside
its documented range, constructing the corresponding syringe sub-command
(`SyringePickup`, `SyringeDispense`, `SyringeAbsoluteMove`) fails with
`ValidationError`, and no transaction is performed during construction. -/
theorem syringe_move_validation (r : SyringeRanges) (side : Side) :
    (∀ (v : Int) (sp rs : Option Int),
      (valueOutside r v || speedOutside r sp || returnStepsOutside r rs) = true →
      mkSyringePickup r side v sp rs = (.error .outOfRange, [])) ∧
    (∀ (v : Int) (sp : Option Int),
      (valueOutside r v || speedOutside r sp) = true →
      mkSyringeDispense r side v sp = (.error .outOfRange, [])) ∧
    (∀ (v : Int) (sp : Option Int),
      (valueOutside r v || speedOutside r sp) = true →
      mkSyringeAbsoluteMove r side v sp = (.error .outOfRange, [])) := by
  refine ⟨fun v sp rs h => ?_, fun v sp h => ?_, fun v sp h => ?_⟩ <;>
    simp [mkSyringePickup, mkSyringeDispense, mkSyringeAbsoluteMove, h]

theorem syringe_move_validation_witness :
    mkSyringePickup ⟨0, 48000, 2, 5999, 0, 1000⟩ .right (-20) none none =
      (.error .outOfRange, []) ∧
    mkSyringeDispense ⟨0, 48000, 2, 5999, 0, 1000⟩ .left 3 (some (-300)) =
      (.error .outOfRange, []) ∧
    mkSyringeAbsoluteMove ⟨0, 48000, 2, 5999, 0, 1000⟩ .left 50000 none =
      (.error .outOfRange, []) :=
  ⟨(syringe_move_validation _ _).1 (-20) none none (by decide),
   (syringe_move_validation _ _).2.1 3 (some (-300)) (by decide),
   (syringe_move_validation _ _).2.2 50000 none (by decide)⟩

theorem sendReceiveAux_ok (l : List Char) (hA : ∀ c ∈ l, c.toNat < 128)
    (hn : l.head? ≠ some NACKchar) (hne : l ≠ []) :
    sendReceiveAux (l.map Char.toNat) = .ok (some l) := by
  obtain ⟨c0, l', rfl⟩ := List.exists_cons_of_ne_nil hne
  have hc0 : c0 ≠ NACKchar := by simpa using hn
  simp only [sendReceiveAux, decodeAscii_map_toNat _ hA]
  rw [if_neg hc0]

theorem classifyDecoded_segJoin (earlier : List (List Char)) (lastSeg : List Char)
    (hCRe : ∀ s ∈ earlier, CRchar ∉ s) (hCRl : CRchar ∉ lastSeg) (hne : lastSeg ≠ []) :
    classifyDecoded (segJoin earlier ++ (lastSeg ++ [CRchar])) =
      .ok ⟨decide (lastSeg.head? = some ACKchar),
           if lastSeg.head? = some ACKchar then
             orNone (pyStrip CRchar (pyStrip ACKchar lastSeg))
           else none,
           if earlier = [] then 0 else 1⟩ := by
  have hsplit : pySplit CRchar (segJoin earlier ++ (lastSeg ++ [CRchar])) =
      earlier ++ [lastSeg, []] := by
    rw [pySplit_segJoin _ _ hCRe]
    have h1 : lastSeg ++ [CRchar] = lastSeg ++ CRchar :: [] := rfl
    rw [h1, pySplit_append_sep _ _ _ hCRl]
    rfl
  have hdrop : (earlier ++ [lastSeg, []]).dropLast = earlier ++ [lastSeg] := by
    have h2 : earlier ++ [lastSeg, []] = (earlier ++ [lastSeg]) ++ [[]] := by simp
    rw [h2, List.dropLast_concat]
  obtain ⟨d0, ds, rfl⟩ := List.exists_cons_of_ne_nil hne
  have hw : (if 1 < (earlier ++ [d0 :: ds]).length then (1 : Nat) else 0) =
      (if earlier = [] then 0 else 1) := by
    rcases earlier with _ | ⟨e, es⟩ <;> simp
  simp only [classifyDecoded, hsplit, hdrop, List.getLast?_concat, hw]
  by_cases hd : d0 = ACKchar <;> simp [hd]

/-- C1 amended: given `\x06A\r\x06B\r`, `send_receive` reports success with
payload `B` and exactly one multiple-messages warning; and for every
decodable reply made of CR-terminated earlier segments followed by a final
CR-terminated segment, the final segment alone determines the success flag
and the payload — provided the reply's very first byte is not NACK, since
`_send_receive` rejects the whole concatenation up front when it is. -/
theorem final_segment_classification :
    sendReceive (.bytes [6, 65, 13, 6, 66, 13]) = .ok ⟨true, some ['B'], 1⟩ ∧
    ∀ (earlier : List (List Char)) (lastSeg : List Char),
      (∀ s ∈ earlier, CRchar ∉ s) →
      (∀ s ∈ earlier, ∀ c ∈ s, c.toNat < 128) →
      CRchar ∉ lastSeg →
      (∀ c ∈ lastSeg, c.toNat < 128) →
      lastSeg ≠ [] →
      (segJoin earlier ++ (lastSeg ++ [CRchar])).head? ≠ some NACKchar →
      sendReceive (.bytes ((segJoin earlier ++ (lastSeg ++ [CRchar])).map Char.toNat)) =
        .ok ⟨decide (lastSeg.head? = some ACKchar),
             if lastSeg.head? = some ACKchar then
               orNone (pyStrip CRchar (pyStrip ACKchar lastSeg))
             else none,
             if earlier = [] then 0 else 1⟩ := by
  refine ⟨by decide, ?_⟩
  intro earlier lastSeg hCRe hAsc hCRl hAscL hne hnack
  have hA : ∀ c ∈ segJoin earlier ++ (lastSeg ++ [CRchar]), c.toNat < 128 := by
    intro c hc
    rcases List.mem_append.mp hc with hc | hc
    · simp only [segJoin] at hc
      rcases List.mem_flatten.mp hc with ⟨t, ht, hct⟩
      rcases List.mem_map.mp ht with ⟨sseg, hsseg, rfl⟩
      rcases List.mem_append.mp hct with hcs | hcr
      · exact hAsc sseg hsseg c hcs
      · rw [List.mem_singleton.mp hcr]
        decide
    · rcases List.mem_append.mp hc with hcl | hcr
      · exact hAscL c hcl
      · rw [List.mem_singleton.mp hcr]
        decide
  have hlne : segJoin earlier ++ (lastSeg ++ [CRchar]) ≠ [] := by
    simp
  have haux := sendReceiveAux_ok _ hA hnack hlne
  simp only [sendReceive, haux]
  exact classifyDecoded_segJoin earlier lastSeg hCRe hCRl hne

theorem final_segment_classification_witness :
    sendReceive (.bytes ((segJoin [['Q']] ++ (['\x06', 'B'] ++ [CRchar])).map Char.toNat)) =
      .ok ⟨true, some ['B'], 1⟩ := by
  have h := final_segment_classification.2 [['Q']] ['\x06', 'B']
    (by decide) (by decide) (by decide) (by decide) (by decide) (by decide)
  simpa using h

/-- C1 counterexample: the classification is not governed by the final
segment alone — with the same final segment `\x06B\r`, an earlier segment
beginning with NACK (`\x21A\r\x06B\r`) flips the result to failure with no
warning, because `_send_receive` inspects the first byte of the whole
concatenated reply. -/
theorem nack_prefix_overrides_final_segment :
    sendReceive (.bytes [33, 65, 13, 6, 66, 13]) = .ok ⟨false, none, 0⟩ ∧
    sendReceive (.bytes [33, 65, 13, 6, 66, 13]) ≠ .ok ⟨true, some ['B'], 1⟩ ∧
    sendReceive (.bytes [6, 65, 13, 6, 66, 13]) = .ok ⟨true, some ['B'], 1⟩ := by
  decide

/-! ## Mutual exclusion of the Link's gate -/

theorem link_step_invariant {b c : LinkState} (hbc : LinkStep b c)
    (ih : ∀ t, inExchange b t → b.holder = some t) :
    ∀ t, inExchange c t → c.holder = some t := by
  cases hbc with
  | acquire t0 _ hpc hfree =>
    intro t ht
    by_cases hte : t = t0
    · subst hte
      rfl
    · exfalso
      have hpct : Function.update b.pc t0 LockPC.locked t = b.pc t :=
        Function.update_noteq hte _ _
      have hb : inExchange b t := by
        rcases ht with h1 | h1
        · exact Or.inl (by rw [← hpct]; exact h1)
        · exact Or.inr (by rw [← hpct]; exact h1)
      rw [ih t hb] at hfree
      exact Option.noConfusion hfree
  | send t0 _ hpc =>
    intro t ht
    by_cases hte : t = t0
    · subst hte
      exact ih t (Or.inl hpc)
    · have hpct : Function.update b.pc t0 LockPC.sent t = b.pc t :=
        Function.update_noteq hte _ _
      have hb : inExchange b t := by
        rcases ht with h1 | h1
        · exact Or.inl (by rw [← hpct]; exact h1)
        · exact Or.inr (by rw [← hpct]; exact h1)
      exact ih t hb
  | recvRelease t0 _ hpc =>
    intro t ht
    exfalso
    by_cases hte : t = t0
    · subst hte
      rcases ht with h1 | h1 <;> simp [Function.update_same] at h1
    · have hpct : Function.update b.pc t0 LockPC.finished t = b.pc t :=
        Function.update_noteq hte _ _
      have hb : inExchange b t := by
        rcases ht with h1 | h1
        · exact Or.inl (by rw [← hpct]; exact h1)
        · exact Or.inr (by rw [← hpct]; exact h1)
      have h1 := ih t hb
      have h2 := ih t0 (Or.inr hpc)
      rw [h1] at h2
      exact hte (Option.some.inj h2)

theorem link_gate_invariant {s : LinkState} (h : LinkReachable s) :
    ∀ t, inExchange s t → s.holder = some t := by
  unfold LinkReachable at h
  induction h with
  | refl =>
    intro t ht
    rcases ht with h1 | h1 <;> simp [LinkInit] at h1
  | tail _ hbc ih =>
    exact link_step_invariant hbc ih

/-- C5: in every reachable state of the Link's gate, at most one logical
caller is inside the gated send-then-receive exchange, so transactions of
concurrent callers are totally ordered with no interleaving of their
writes and reads. -/
theorem link_gate_mutual_exclusion (s : LinkState) (h : LinkReachable s)
    (t1 t2 : Nat) (h1 : inExchange s t1) (h2 : inExchange s t2) : t1 = t2 := by
  have e1 := link_gate_invariant h t1 h1
  have e2 := link_gate_invariant h t2 h2
  rw [e1] at e2
  exact Option.some.inj e2

theorem link_gate_mutual_exclusion_witness :
    LinkReachable exampleLinkState ∧ (0 : Nat) = 0 := by
  have hr : LinkReachable exampleLinkState :=
    Relation.ReflTransGen.single (LinkStep.acquire 0 LinkInit rfl rfl)
  have hx : inExchange exampleLinkState 0 :=
    Or.inl (by simp [exampleLinkState, Function.update_same])
  exact ⟨hr, link_gate_mutual_exclusion exampleLinkState hr 0 0 hx hx⟩

/-! ## The cycling loop -/

theorem getLast?_cons_of_getLast? {α : Type} {l : List α} {a x : α}
    (h : l.getLast? = some a) : (x :: l).getLast? = some a := by
  cases l with
  | nil => simp at h
  | cons y ys =>
    rw [List.getLast?_cons_cons]
    exact h

/-- C7: whenever the cycling loop terminates, it does so through
`_reset_cycle`: the final controller state has the stop flag cleared and
the task-handle list empty, and the last observable action before
returning is the `halt_execution` transaction. -/
theorem cycle_loop_reset_on_exit (commands : List (List Char)) (address : List Char)
    (stops : Nat → Bool) (polls : Nat → Option (List Char)) :
    ∀ (f si pi : Nat) (ph : Phase) (s : MState) (tr : List CycleAction) (s' : MState),
      runCycle commands address stops polls f si pi ph s = some (tr, s') →
      s' = ⟨[], false⟩ ∧ tr.getLast? = some .halt := by
  intro f
  induction f with
  | zero =>
    intro si pi ph s tr s' h
    simp [runCycle] at h
  | succ f ih =>
    intro si pi ph s tr s' h
    cases ph with
    | outer =>
      rw [runCycle] at h
      split at h
      · simp only [Option.some.injEq, Prod.mk.injEq] at h
        obtain ⟨htr, hs⟩ := h
        exact ⟨hs.symm, htr ▸ rfl⟩
      · exact ih _ _ _ _ _ _ h
    | cmds rest =>
      cases rest with
      | nil => exact ih _ _ _ _ _ _ (by rwa [runCycle] at h)
      | cons c cs =>
        rw [runCycle] at h
        rcases hrec : runCycle commands address stops polls f si pi (.poll cs) s with
          _ | ⟨tr0, s0⟩
        · rw [hrec] at h
          simp at h
        · rw [hrec] at h
          simp only [Option.some.injEq, Prod.mk.injEq] at h
          obtain ⟨htr, hs⟩ := h
          obtain ⟨hs0, hlast⟩ := ih _ _ _ _ _ _ hrec
          exact ⟨hs ▸ hs0, htr ▸ getLast?_cons_of_getLast? hlast⟩
    | poll rest =>
      rw [runCycle] at h
      split at h
      · rcases hrec : runCycle commands address stops polls f si (pi + 1) (.cmds rest) s with
          _ | ⟨tr0, s0⟩
        · rw [hrec] at h
          simp at h
        · rw [hrec] at h
          simp only [Option.some.injEq, Prod.mk.injEq] at h
          obtain ⟨htr, hs⟩ := h
          obtain ⟨hs0, hlast⟩ := ih _ _ _ _ _ _ hrec
          exact ⟨hs ▸ hs0, htr ▸ getLast?_cons_of_getLast? hlast⟩
      · split at h
        · simp only [Option.some.injEq, Prod.mk.injEq] at h
          obtain ⟨htr, hs⟩ := h
          exact ⟨hs.symm, htr ▸ rfl⟩
        · rcases hrec : runCycle commands address stops polls f (si + 1) (pi + 1) (.poll rest) s with
            _ | ⟨tr0, s0⟩
          · rw [hrec] at h
            simp at h
          · rw [hrec] at h
            simp only [Option.some.injEq, Prod.mk.injEq] at h
            obtain ⟨htr, hs⟩ := h
            obtain ⟨hs0, hlast⟩ := ih _ _ _ _ _ _ hrec
            exact ⟨hs ▸ hs0,
              htr ▸ getLast?_cons_of_getLast? (getLast?_cons_of_getLast? hlast)⟩

theorem cycle_loop_reset_on_exit_witness :
    ((⟨[], false⟩ : MState) = ⟨[], false⟩) ∧
    ([CycleAction.halt] : List CycleAction).getLast? = some .halt :=
  cycle_loop_reset_on_exit [] ['a'] (fun _ => true) (fun _ => none)
    1 0 0 .outer ⟨[3], true⟩ [CycleAction.halt] ⟨[], false⟩ (by decide)

theorem runCycle_polls_congr (commands : List (List Char)) (address : List Char)
    (stops : Nat → Bool) (polls₁ polls₂ : Nat → Option (List Char))
    (hp : ∀ i, polls₁ i = some Y_INFO_RESPONSE ↔ polls₂ i = some Y_INFO_RESPONSE) :
    ∀ (f si pi : Nat) (ph : Phase) (s : MState),
      runCycle commands address stops polls₁ f si pi ph s =
        runCycle commands address stops polls₂ f si pi ph s := by
  intro f
  induction f with
  | zero =>
    intro si pi ph s
    rfl
  | succ f ih =>
    intro si pi ph s
    cases ph with
    | outer =>
      rw [runCycle, runCycle]
      split
      · rfl
      · exact ih _ _ _ _
    | cmds rest =>
      cases rest with
      | nil =>
        rw [runCycle, runCycle]
        exact ih _ _ _ _
      | cons c cs =>
        rw [runCycle, runCycle, ih _ _ _ _]
    | poll rest =>
      rw [runCycle, runCycle]
      by_cases hY : polls₁ pi = some Y_INFO_RESPONSE
      · have hY2 : polls₂ pi = some Y_INFO_RESPONSE := (hp pi).1 hY
        rw [if_pos hY, if_pos hY2, ih _ _ _ _]
      · have hY2 : ¬polls₂ pi = some Y_INFO_RESPONSE := fun h2 => hY ((hp pi).2 h2)
        rw [if_neg hY, if_neg hY2]
        split
        · rfl
        · rw [ih _ _ _ _]

theorem runCycle_none_without_stop (commands : List (List Char)) (address : List Char)
    (stops : Nat → Bool) (polls : Nat → Option (List Char))
    (hs : ∀ i, stops i = false) :
    ∀ (f si pi : Nat) (ph : Phase) (s : MState),
      runCycle commands address stops polls f si pi ph s = none := by
  intro f
  induction f with
  | zero =>
    intro si pi ph s
    rfl
  | succ f ih =>
    intro si pi ph s
    cases ph with
    | outer =>
      rw [runCycle, if_neg (by rw [hs si]; exact Bool.false_ne_true)]
      exact ih _ _ _ _
    | cmds rest =>
      cases rest with
      | nil =>
        rw [runCycle]
        exact ih _ _ _ _
      | cons c cs =>
        rw [runCycle, ih _ _ _ _]
    | poll rest =>
      rw [runCycle]
      split
      · rw [ih _ _ _ _]
      · rw [if_neg (by rw [hs si]; exact Bool.false_ne_true), ih _ _ _ _]

/-- C8: a busy-poll protocol failure is treated exactly as "not yet idle":
the loop's behaviour depends on a poll result only through whether it
equals the idle reply (so a failed poll, payload `None`, acts exactly like
any non-idle payload), and with no stop request the loop never returns —
the cycle is never aborted by failed busy-polls. -/
theorem busy_poll_failure_is_not_idle :
    (∀ (commands : List (List Char)) (address : List Char) (stops : Nat → Bool)
        (polls₁ polls₂ : Nat → Option (List Char)),
      (∀ i, polls₁ i = some Y_INFO_RESPONSE ↔ polls₂ i = some Y_INFO_RESPONSE) →
      ∀ (f si pi : Nat) (ph : Phase) (s : MState),
        runCycle commands address stops polls₁ f si pi ph s =
          runCycle commands address stops polls₂ f si pi ph s) ∧
    (∀ (commands : List (List Char)) (address : List Char) (stops : Nat → Bool)
        (polls : Nat → Option (List Char)),
      (∀ i, stops i = false) →
      ∀ (f si pi : Nat) (ph : Phase) (s : MState),
        runCycle commands address stops polls f si pi ph s = none) :=
  ⟨fun commands address stops polls₁ polls₂ hp =>
      runCycle_polls_congr commands address stops polls₁ polls₂ hp,
   fun commands address stops polls hs =>
      runCycle_none_without_stop commands address stops polls hs⟩

theorem busy_poll_failure_is_not_idle_witness :
    runCycle [['P', '1']] ['a'] (fun _ => false) (fun _ => none) 4 0 0 .outer ⟨[1], false⟩ =
      runCycle [['P', '1']] ['a'] (fun _ => false) (fun _ => some ['N']) 4 0 0 .outer
        ⟨[1], false⟩ ∧
    runCycle [['P', '1']] ['a'] (fun _ => false) (fun _ => none) 4 0 0 .outer ⟨[1], false⟩ =
      none :=
  ⟨busy_poll_failure_is_not_idle.1 _ _ _ _ _ (fun _ => by decide) 4 0 0 .outer ⟨[1], false⟩,
   busy_poll_failure_is_not_idle.2 _ _ _ _ (fun _ => rfl) 4 0 0 .outer ⟨[1], false⟩⟩

end SyringePoster
